import Mathlib

/-!
Verification development for the stack and continuation manager of an
effect-handler runtime (runtime/fiber.c).  The C data structures and
functions are shallowly embedded as executable Lean definitions; the
theorems at the end of the file settle the specification claims.

Conventions of the embedding:
* machine words are 8 bytes; addresses are `Int` (byte granularity) or
  `Nat` where only sizes matter;
* opaque OCaml values (handler closures and such) are `Int`;
* the intrusive free lists of the segment cache (linked through the
  `exception_ptr` field) are represented as Lean lists, as the spec's
  design notes themselves suggest;
* `CAMLassert` is debug-only in the source and is modelled by the
  release-build semantics (the assertion is skipped);
* `caml_fatal_error` (process termination) is modelled by a `fatal` flag
  distinct from every recoverable error.
-/

namespace Fiber

/-- Errors surfaced to the calling code by this subsystem.
`continuation_already_resumed` is the catchable exception
Effect.Continuation_already_resumed raised by
caml_raise_continuation_already_resumed. -/
inductive FiberError where
  | continuation_already_resumed
  | stack_overflow
  | out_of_memory
  deriving DecidableEq, Repr

/-! ## Segments (struct stack_info) -/

/-- Model of struct stack_info together with its trailing handler record
(struct stack_handler).  `addr` is the identity of the underlying memory
region (the value of the C pointer), preserved across cache reuse.
`capacity` is Stack_high - Stack_base in words.  `sp_off` is
Stack_high - sp in words, so `sp_off = 0` means the whole usable region
is available.  The intrusive `exception_ptr` cache link is represented
by list structure instead of a stored pointer. -/
structure StackInfo where
  addr : Nat
  capacity : Nat
  cache_bucket : Option Nat
  sp_off : Nat
  handle_value : Int
  handle_exn : Int
  handle_effect : Int
  parent : Option Nat
  id : Int
  local_arenas : Option Nat
  local_sp : Int
  local_top : Option Nat
  local_limit : Nat
  deriving DecidableEq, Repr

/-- Per-execution-context segment cache: one free list per size-class
bucket (buckets 0 .. NUM_STACK_SIZE_CLASSES-1 are used). -/
abbrev StackCache : Type := Nat → List StackInfo

/-- NUM_STACK_SIZE_CLASSES from fiber.c. -/
def numStackSizeClasses : Nat := 5

/-- Loop body of stack_cache_bucket: `remaining` counts the buckets not
yet examined, `sz` is the running size_bucket_wsz (doubled each step),
`bucket` the running index. -/
def stack_cache_bucket_go (wosize : Nat) : Nat → Nat → Nat → Option Nat
  | 0, _, _ => none
  | remaining + 1, sz, bucket =>
      if wosize = sz then some bucket
      else stack_cache_bucket_go wosize remaining (sz + sz) (bucket + 1)

/-- stack_cache_bucket: index into the stack cache if this size is
pooled, none if unpooled.  A size is pooled only when it equals
caml_fiber_wsz doubled up to NUM_STACK_SIZE_CLASSES times. -/
def stack_cache_bucket (fiberWsz wosize : Nat) : Option Nat :=
  stack_cache_bucket_go wosize numStackSizeClasses fiberWsz 0

/-- Round up to a multiple of the power of two `p2`
(round_up_p2; the bit mask is expressed arithmetically). -/
def round_up_p2 (x p2 : Nat) : Nat := (x + p2 - 1) / p2 * p2

/-- Platform constants entering the layout computation of
alloc_for_stack: sizeof(struct stack_info), sizeof(struct
stack_handler) and Stack_padding_word. -/
structure AllocParams where
  infoBytes : Nat
  handlerBytes : Nat
  padWords : Nat
  deriving DecidableEq, Repr

/-- alloc_for_stack, plain-heap branch (the backend used whenever
neither USE_MMAP_MAP_STACK nor STACK_GUARD_PAGES is selected): the
allocator returns a region at byte address `A`; the handler record is
placed at the 16-byte aligned address past header and usable words.
Modelled from the spec: the Stack_base / Stack_high accessors of the
missing fiber.h header; Stack_base is the first word after the header
and Stack_high the top of the usable region, one padding word below the
handler record.  Only the handler placement is initialised here; the
other fields of the result are the caller's responsibility. -/
def alloc_for_stack (P : AllocParams) (A : Nat) (wosize : Nat) : StackInfo :=
  let w := wosize + P.padWords
  let handlerAddr := round_up_p2 (A + P.infoBytes + 8 * w) 16
  let base := A + P.infoBytes
  let high := handlerAddr - 8 * P.padWords
  { addr := A
    capacity := (high - base) / 8
    cache_bucket := none
    sp_off := 0
    handle_value := 0
    handle_exn := 0
    handle_effect := 0
    parent := none
    id := 0
    local_arenas := none
    local_sp := 0
    local_top := none
    local_limit := 0 }

/-- alloc_size_class_stack_noexc.  `freshAddr` is the allocator oracle:
the address the backend would return for a fresh region (none models
backend out-of-memory).  The boolean in the result records whether the
backend was called on this path.  On a cache hit the segment is popped
from the per-context free list with no backend call; either way the
handler triple, sp, id and local-arena state are (re)initialised. -/
def alloc_size_class_stack_noexc (P : AllocParams) (cache : StackCache)
    (wosize : Nat) (cache_bucket : Option Nat)
    (hval hexn heff : Int) (id : Int) (freshAddr : Option Nat) :
    Option (StackInfo × StackCache × Bool) :=
  let picked : Option (StackInfo × StackCache × Bool) :=
    match cache_bucket with
    | some b =>
        match cache b with
        | stk :: rest => some (stk, Function.update cache b rest, false)
        | [] =>
            match freshAddr with
            | none => none
            | some A =>
                some ({ alloc_for_stack P A wosize with cache_bucket := some b },
                      cache, true)
    | none =>
        match freshAddr with
        | none => none
        | some A =>
            some ({ alloc_for_stack P A wosize with cache_bucket := none },
                  cache, true)
  match picked with
  | none => none
  | some (stk, cache2, backendCalled) =>
      some ({ stk with
                handle_value := hval
                handle_exn := hexn
                handle_effect := heff
                parent := none
                sp_off := 0
                id := id
                local_arenas := none
                local_sp := 0
                local_top := none
                local_limit := 0 },
            cache2, backendCalled)

/-- caml_alloc_stack_noexc: compute the size-class bucket, then
allocate through the cache / backend. -/
def caml_alloc_stack_noexc (P : AllocParams) (fiberWsz : Nat)
    (cache : StackCache) (wosize : Nat) (hval hexn heff : Int) (id : Int)
    (freshAddr : Option Nat) : Option (StackInfo × StackCache × Bool) :=
  alloc_size_class_stack_noexc P cache wosize
    (stack_cache_bucket fiberWsz wosize) hval hexn heff id freshAddr

/-- caml_free_stack: release the attached local arenas, then either push
the segment onto the free list of its size class (pooled; the
exception_ptr link is the list structure) or return the memory to the
backend (unpooled).  The boolean records whether the backend released
memory on this path. -/
def caml_free_stack (cache : StackCache) (stk : StackInfo) :
    StackCache × Bool :=
  match stk.cache_bucket with
  | some b => (Function.update cache b (stk :: cache b), false)
  | none => (cache, true)

/-! ## Continuations -/

/-- The single mutable slot of a continuation object: Field(cont, 0),
holding either a segment-chain pointer or the null sentinel
Val_ptr(NULL), modelled as none. -/
abbrev ContSlot : Type := Option StackInfo

/-- caml_continuation_use_noexc.  `alone` is caml_domain_alone(): on the
single-execution-context fast path the slot is read and overwritten with
the null sentinel by plain accesses; otherwise an atomic
compare-exchange of the value just read against the null sentinel is
used, returning the null sentinel when the exchange fails.  (The
publication barrier caml_darken_cont towards a concurrently marking
collector is external to this model.)  Result: (returned value, final
slot state). -/
def caml_continuation_use_noexc (alone : Bool) (slot : ContSlot) :
    ContSlot × ContSlot :=
  let v := slot
  if alone then
    (v, none)
  else
    if slot = v then (v, none) else (none, slot)

/-- caml_continuation_use: as the noexc variant, but raises
Effect.Continuation_already_resumed when the returned value is the null
sentinel. -/
def caml_continuation_use (alone : Bool) (slot : ContSlot) :
    Except FiberError (StackInfo × ContSlot) :=
  match caml_continuation_use_noexc alone slot with
  | (none, _) => .error .continuation_already_resumed
  | (some stk, slot2) => .ok (stk, slot2)

/-- caml_drop_continuation: take the continuation with the raising
variant caml_continuation_use, then free the returned segment through
caml_free_stack.  Result on success: (cache after the free, whether the
backend released memory, final slot state). -/
def caml_drop_continuation (alone : Bool) (cache : StackCache)
    (slot : ContSlot) : Except FiberError (StackCache × Bool × ContSlot) :=
  match caml_continuation_use alone slot with
  | .error e => .error e
  | .ok (stk, slot2) =>
      let fr := caml_free_stack cache stk
      .ok (fr.1, fr.2, slot2)

/-! ## Growth manager -/

/-- The three mutually exclusive backend strategies, selected once per
process build: USE_MMAP_MAP_STACK, STACK_GUARD_PAGES, or the plain heap
allocator. -/
inductive Backend where
  | mmapMapStack
  | guardPages
  | plainHeap
  deriving DecidableEq, Repr

/-- The do-while doubling loop of caml_try_realloc_stack: fail if the
current size has reached caml_max_stack_wsize, otherwise double, and
stop as soon as the doubled size covers `target` (stack_used +
required_space).  The C loop terminates because the size strictly grows;
`fuel` is the induction handle of the embedding and any fuel above
maxW is enough (see realloc_wsize_loop_none_spec). -/
def realloc_wsize_loop (maxW target : Nat) : Nat → Nat → Option Nat
  | 0, _ => none
  | fuel + 1, wsize =>
      if maxW ≤ wsize then none
      else
        let w2 := wsize * 2
        if w2 < target then realloc_wsize_loop maxW target fuel w2
        else some w2

/-- The execution view of one stack segment used by the growth manager:
absolute word addresses of Stack_base, Stack_high and sp, plus the
header and handler fields carried over to the reallocated stack.
`addr` is the identity of the struct stack_info pointer. -/
structure GrowStack where
  addr : Int
  base : Int
  high : Int
  sp : Int
  parent : Option Int
  handle_value : Int
  handle_exn : Int
  handle_effect : Int
  id : Int
  local_arenas : Option Nat
  local_sp : Int
  local_top : Option Nat
  local_limit : Nat
  deriving Repr

/-- One struct c_stack_link of Caml_state->c_stack. -/
structure CStackLink where
  stack : Int
  sp : Int
  async_exn_handler : Int
  deriving DecidableEq, Repr

/-- The mutable state caml_try_realloc_stack operates on: the current
stack, word-addressed memory, the addresses of the
Caml_state->exn_handler and Caml_state->async_exn_handler cells (the
exception-chain head cells live in `mem` at these addresses, outside
any stack region), and the c_stack link list. -/
structure GrowState where
  current : GrowStack
  mem : Int → Int
  exnAddr : Int
  asyncAddr : Int
  cstack : List CStackLink

/-- caml_rewrite_exception_stack: walk the exception chain starting at
the cell `loc`, and while the pointer read there lies inside the old
stack range (Stack_base(old) < p <= Stack_high(old)), overwrite it with
the corresponding new-stack address Stack_high(new) - (Stack_high(old)
- p); a pointer equal to the async_exn_handler cell value updates that
cell too; then follow the rewritten pointer.  The walk stops at the
first pointer outside the old range. -/
def rewrite_exn_loop (oldBase oldHigh newHigh asyncAddr : Int) :
    Nat → (Int → Int) → Int → (Int → Int)
  | 0, mem, _ => mem
  | fuel + 1, mem, loc =>
      let p := mem loc
      if oldBase < p ∧ p ≤ oldHigh then
        let p2 := newHigh - (oldHigh - p)
        let mem2 : Int → Int := fun x =>
          if x = loc then p2
          else if p = mem asyncAddr ∧ x = asyncAddr then p2
          else mem x
        rewrite_exn_loop oldBase oldHigh newHigh asyncAddr fuel mem2 p2
      else mem

/-- The c_stack_link update of caml_try_realloc_stack: links whose
stack is the old stack are repointed to the new stack with their sp
shifted by the move delta, and an async_exn_handler lying inside the old
stack range is shifted likewise.  (The WITH_FRAME_POINTERS frame-chain
rewrite is a conditionally compiled feature not modelled here.) -/
def rewrite_c_stack_link (old new : GrowStack) (delta : Int)
    (link : CStackLink) : CStackLink :=
  let l1 :=
    if link.stack = old.addr then
      { link with stack := new.addr, sp := link.sp + delta }
    else link
  if old.base ≤ l1.async_exn_handler ∧ l1.async_exn_handler < old.high then
    { l1 with async_exn_handler := l1.async_exn_handler + delta }
  else l1

/-- caml_try_realloc_stack (native-code build).  Under the
USE_MMAP_MAP_STACK and STACK_GUARD_PAGES backends the function is
compiled to return 0 immediately; under the plain-heap backend it runs
the doubling policy, allocates a new stack (the `alloc` oracle stands
for caml_alloc_stack_noexc and yields the new region placement for the
computed size, or none on out-of-memory), copies the live suffix,
carries over sp, parent and local-arena state, rewrites the exception
chain and the c_stack links, and installs the new stack.  A none result
leaves every part of the state unchanged, exactly as the C returns 0
before any mutation. -/
def caml_try_realloc_stack (backend : Backend) (maxW fuel : Nat)
    (alloc : Nat → Option (Int × Int × Int)) (st : GrowState)
    (required : Nat) : Option GrowState :=
  match backend with
  | .mmapMapStack => none
  | .guardPages => none
  | .plainHeap =>
      let old := st.current
      let stack_used : Int := old.high - old.sp
      let wsize0 : Nat := (old.high - old.base).toNat
      match realloc_wsize_loop maxW (stack_used.toNat + required) fuel wsize0 with
      | none => none
      | some wsize =>
          match alloc wsize with
          | none => none
          | some (naddr, nbase, nhigh) =>
              let delta := nhigh - old.high
              let newStk : GrowStack :=
                { addr := naddr
                  base := nbase
                  high := nhigh
                  sp := nhigh - stack_used
                  parent := old.parent
                  handle_value := old.handle_value
                  handle_exn := old.handle_exn
                  handle_effect := old.handle_effect
                  id := old.id
                  local_arenas := old.local_arenas
                  local_sp := old.local_sp
                  local_top := old.local_top
                  local_limit := old.local_limit }
              let mem1 : Int → Int := fun a =>
                if nhigh - stack_used ≤ a ∧ a < nhigh then st.mem (a - delta)
                else st.mem a
              let mem2 :=
                rewrite_exn_loop old.base old.high nhigh st.asyncAddr fuel
                  mem1 st.exnAddr
              some { current := newStk
                     mem := mem2
                     exnAddr := st.exnAddr
                     asyncAddr := st.asyncAddr
                     cstack := st.cstack.map (rewrite_c_stack_link old newStk delta) }

/-- caml_ensure_stack_capacity: if fewer than `required` words are
available above Stack_base, attempt reallocation and convert a failure
into the catchable stack-overflow exception. -/
def caml_ensure_stack_capacity (backend : Backend) (maxW fuel : Nat)
    (alloc : Nat → Option (Int × Int × Int)) (st : GrowState)
    (required : Nat) : Except FiberError GrowState :=
  if st.current.sp - (required : Int) < st.current.base then
    match caml_try_realloc_stack backend maxW fuel alloc st required with
    | none => .error .stack_overflow
    | some st2 => .ok st2
  else .ok st

/-! ## Root scanning (native and bytecode modes) and local arenas -/

/-- Block colours as seen by the scanner: NOT_MARKABLE (local or
external), colors.GARBAGE (the transient marked-local colour), or a
markable major-heap colour. -/
inductive HColor where
  | notMarkable
  | garbage
  | major
  deriving DecidableEq, Repr

/-- The information packed into a block header that the scanner
consults: colour, tag, total and scannable sizes in words, the
Start_env_closinfo value for Closure_tag blocks and the
Infix_offset_val for Infix_tag blocks (both are read out of the block
in C; the model carries them in the decoded header). -/
structure BlockHeader where
  color : HColor
  tag : Nat
  wosize : Nat
  scannableWosize : Nat
  startEnv : Nat
  infixOfs : Int
  deriving DecidableEq, Repr

/-- A header word is either the Local_uninit_hd arena-boundary sentinel
or an ordinary block header. -/
inductive HCell where
  | uninit
  | hdr (h : BlockHeader)
  deriving DecidableEq, Repr

/-- A value as classified by the scanner: an immediate (not Is_block),
a block in the minor heap (Is_young), or a block elsewhere carrying its
byte address. -/
inductive FieldVal where
  | imm
  | young (a : Int)
  | block (a : Int)
  deriving DecidableEq, Repr

/-- One invocation of the scanning_action callback f(fdata, v, p):
slot address `p` and value `v`. -/
structure ScanEvent where
  p : Int
  v : FieldVal
  deriving DecidableEq, Repr

/-- One struct caml_local_arena: base byte address and byte length. -/
structure LocalArena where
  base : Int
  length : Int
  deriving DecidableEq, Repr

/-- One evaluation of the forwards/backwards test on a reference into a
local arena: the current scan offset and the offset of the target. -/
structure RefCheck where
  sp : Int
  newsp : Int
  deriving DecidableEq, Repr

def Infix_tag : Nat := 249

def Closure_tag : Nat := 247

def No_scan_tag : Nat := 251

/-- get_local_ix search loop: first arena (from index `i` upwards)
whose byte range contains `v`. -/
def get_local_ix_from (v : Int) : List LocalArena → Nat → Option Nat
  | [], _ => none
  | a :: rest, i =>
      if a.base ≤ v ∧ v < a.base + a.length then some i
      else get_local_ix_from v rest (i + 1)

/-- get_local_ix: the arena number of a block, or none if it is in no
local arena. -/
def get_local_ix (loc : List LocalArena) (v : Int) : Option Nat :=
  get_local_ix_from v loc 0

/-- visit: classify the value in slot `p`.  Young values are reported
to the collector; an Infix_tag pointer is adjusted to its enclosing
block; an already-marked local block is skipped; an unmarked local
block is marked with the transient GARBAGE colour and its arena index
returned; NOT_MARKABLE blocks outside every arena (external) are
skipped; everything else is major-heap data and is reported.  Returns
the updated header memory, the marked arena index (the C return value,
with none for -1) and the callback events. -/
def visit (fields : Int → FieldVal) (locals : Option (List LocalArena))
    (headers : Int → HCell) (p : Int) :
    (Int → HCell) × Option Nat × List ScanEvent :=
  match fields p with
  | .imm => (headers, none, [])
  | .young a => (headers, none, [⟨p, .young a⟩])
  | .block a =>
      let vblock : Int :=
        match headers (a - 8) with
        | .hdr h => if h.tag = Infix_tag then a - h.infixOfs else a
        | .uninit => a
      match headers (vblock - 8) with
      | .uninit => (headers, none, [])
      | .hdr h =>
          if h.color = .garbage then (headers, none, [])
          else if h.color = .notMarkable then
            match locals with
            | none => (headers, none, [])
            | some loc =>
                match get_local_ix loc vblock with
                | some ix =>
                    (fun q =>
                        if q = vblock - 8 then .hdr { h with color := .garbage }
                        else headers q,
                     some ix, [])
                | none => (headers, none, [])
          else (headers, none, [⟨p, .block a⟩])

/-- The outcome of a scanning pass: final header memory, the callback
events in order, the forwards/backwards checks performed on local
references, and whether caml_fatal_error was reached. -/
structure FieldScanOut where
  headers : Int → HCell
  events : List ScanEvent
  checks : List RefCheck
  fatal : Bool

/-- The field loop of scan_local_allocations for one object: fields
`i` to `i + rem - 1` of the block whose first field is at `valAddr`.
A visited unmarked local target has its offset newsp compared against
the current scan offset `sp`: a forwards reference (sp <= newsp) is
accepted, a backwards one reaches caml_fatal_error (backwards local
pointer), which terminates the scan. -/
def scan_obj_fields (fields : Int → FieldVal) (loc : List LocalArena)
    (sp valAddr : Int) : Nat → Nat → (Int → HCell) → FieldScanOut
  | _, 0, headers => ⟨headers, [], [], false⟩
  | i, rem + 1, headers =>
      let p := valAddr + 8 * (i : Int)
      match visit fields (some loc) headers p with
      | (headers2, none, evs) =>
          let rest := scan_obj_fields fields loc sp valAddr (i + 1) rem headers2
          ⟨rest.headers, evs ++ rest.events, rest.checks, rest.fatal⟩
      | (headers2, some ix, evs) =>
          let a := loc.getD ix ⟨0, 0⟩
          let av : Int :=
            match fields p with
            | .block b => b
            | .young b => b
            | .imm => 0
          let newsp := av - (a.base + a.length)
          if sp ≤ newsp then
            let rest := scan_obj_fields fields loc sp valAddr (i + 1) rem headers2
            ⟨rest.headers, evs ++ rest.events, ⟨sp, newsp⟩ :: rest.checks,
             rest.fatal⟩
          else
            ⟨headers2, evs, [⟨sp, newsp⟩], true⟩

/-- The while (sp < 0) loop of scan_local_allocations.  The
Local_uninit_hd sentinel pops to the previous arena; an unmarked
(NOT_MARKABLE) local object is dead and skipped at full size; a marked
object has its mark reset and, unless its tag is at or above
No_scan_tag, its scannable fields visited (closures start at their
captured environment).  The C loop terminates because sp strictly
increases; `fuel` is the induction handle of the embedding. -/
def scan_local_loop (fields : Int → FieldVal) (loc : List LocalArena) :
    Nat → (Int → HCell) → Int → Nat → FieldScanOut
  | 0, headers, _, _ => ⟨headers, [], [], false⟩
  | fuel + 1, headers, sp, arena_ix =>
      if sp < 0 then
        let arena := loc.getD arena_ix ⟨0, 0⟩
        let hp := arena.base + arena.length + sp
        match headers hp with
        | .uninit => scan_local_loop fields loc fuel headers sp (arena_ix - 1)
        | .hdr h =>
            if h.color = .notMarkable then
              scan_local_loop fields loc fuel headers
                (sp + 8 * ((h.wosize : Int) + 1)) arena_ix
            else
              let h2 := { h with color := .notMarkable }
              let headers2 : Int → HCell := fun q =>
                if q = hp then .hdr h2 else headers q
              if No_scan_tag ≤ h2.tag then
                scan_local_loop fields loc fuel headers2
                  (sp + 8 * ((h2.wosize : Int) + 1)) arena_ix
              else
                let i0 := if h2.tag = Closure_tag then h2.startEnv else 0
                let fout := scan_obj_fields fields loc sp (hp + 8) i0
                    (h2.scannableWosize - i0) headers2
                if fout.fatal then fout
                else
                  let rest := scan_local_loop fields loc fuel fout.headers
                      (sp + 8 * ((h2.wosize : Int) + 1)) arena_ix
                  ⟨rest.headers, fout.events ++ rest.events,
                   fout.checks ++ rest.checks, rest.fatal⟩
      else ⟨headers, [], [], false⟩

/-- scan_local_allocations: nothing to do without arenas; otherwise
walk from the local stack pointer towards zero starting in the
most-recently-pushed arena. -/
def scan_local_allocations (fields : Int → FieldVal)
    (loc : Option (List LocalArena)) (local_sp : Int)
    (headers : Int → HCell) (fuel : Nat) : FieldScanOut :=
  match loc with
  | none => ⟨headers, [], [], false⟩
  | some arenas =>
      scan_local_loop fields arenas fuel headers local_sp (arenas.length - 1)

/-- One frame descriptor as consumed by compiled-frame scanning: the
return-to-C flag, the live slot offsets (the long and short descriptor
layouts of the source differ only in integer width and are unified
here; bit 0 of an offset selects a register slot) and the frame byte
size. -/
structure FrameDescr where
  retToC : Bool
  liveOfs : List Nat
  size : Nat
  deriving DecidableEq, Repr

/-- The environment of compiled-frame scanning: the frame-descriptor
table (caml_find_frame_descr), the saved return address at a frame
position (Saved_return_address), the saved gc_regs bucket pointer at a
chunk boundary (Saved_gc_regs), and the value memory covering stack
slots and register-save buckets. -/
structure NativeEnv where
  fds : Nat → Option FrameDescr
  retMem : Int → Nat
  savedRegsPtr : Int → Int
  fields : Int → FieldVal

/-- Modelled from the spec: the First_frame adjustment of the missing
arch headers; scanning starts at the segment's sp, so the model takes
the frame position unchanged. -/
def First_frame (sp : Int) : Int := sp

/-- Modelled from the spec: the trap frame, gc_regs and DWARF pointer
words skipped when crossing a chunk boundary (Stack_header_size of the
missing headers), three words. -/
def Stack_header_size : Int := 24

/-- The per-frame root loop of scan_stack_frames: each live offset is
decoded into a register-save slot (odd) or a stack slot (even) and
visited. -/
def scan_live_ofs (env : NativeEnv) (locals : Option (List LocalArena))
    (rb sp : Int) : List Nat → (Int → HCell) → (Int → HCell) × List ScanEvent
  | [], headers => (headers, [])
  | ofs :: rest, headers =>
      let root : Int :=
        if ofs % 2 = 1 then rb + 8 * ((ofs / 2 : Nat) : Int)
        else sp + (ofs : Int)
      let v := visit env.fields locals headers root
      let rest2 := scan_live_ofs env locals rb sp rest v.1
      (rest2.1, v.2.2 ++ rest2.2)

/-- The frame-walking loop of scan_stack_frames: look up the
descriptor of the current return address; an ordinary frame has its
live slots visited and sp advanced by the frame size; a return-to-C
descriptor marks the top of an ML chunk, where the register bucket is
reloaded, the chunk header is skipped and the walk either finishes (at
Stack_high) or re-enters at the next chunk.  The C loop terminates
because sp strictly advances; `fuel` is the induction handle. -/
def scan_frames_loop (env : NativeEnv) (locals : Option (List LocalArena))
    (high : Int) : Nat → (Int → HCell) → Int → Int → Nat →
    (Int → HCell) × List ScanEvent
  | 0, headers, _, _, _ => (headers, [])
  | fuel + 1, headers, rb, sp, retaddr =>
      match env.fds retaddr with
      | none => (headers, [])
      | some d =>
          if d.retToC then
            let rb2 := env.savedRegsPtr sp
            let sp2 := sp + Stack_header_size
            if sp2 = high then (headers, [])
            else
              scan_frames_loop env locals high fuel headers rb2
                (First_frame sp2) (env.retMem (First_frame sp2))
          else
            let fr := scan_live_ofs env locals rb sp d.liveOfs headers
            let sp2 := sp + (d.size : Int)
            let rest := scan_frames_loop env locals high fuel fr.1 rb sp2
                (env.retMem sp2)
            (rest.1, fr.2 ++ rest.2)

/-- The segment view shared by both scanning modes (struct stack_info
fields used by the root scanner): sp and Stack_high, the address and
values of the handler record, and the local-arena state. -/
structure ScanSeg where
  sp : Int
  high : Int
  handlerAddr : Int
  handle_value : FieldVal
  handle_exn : FieldVal
  handle_effect : FieldVal
  local_arenas : Option (List LocalArena)
  local_sp : Int

/-- scan_stack_frames: an empty chunk (sp already at Stack_high) is
skipped, otherwise the frame walk starts at the first frame of sp. -/
def scan_stack_frames (env : NativeEnv) (locals : Option (List LocalArena))
    (headers : Int → HCell) (stack : ScanSeg) (rb : Int) (fuel : Nat) :
    (Int → HCell) × List ScanEvent :=
  if stack.sp = stack.high then (headers, [])
  else
    scan_frames_loop env locals stack.high fuel headers rb
      (First_frame stack.sp) (env.retMem (First_frame stack.sp))

/-- caml_scan_stack, NATIVE_CODE variant.  The parent chain is the
list tail; per segment: refresh the local arenas, scan the frames,
report the three handler values as roots, scan the local allocations,
then continue with the parent; the walk ends with the list, that is, at
the segment with no parent.  A fatal arena scan terminates the
process, so nothing after it is scanned. -/
def caml_scan_stack_nat (env : NativeEnv) (rb : Int) (fuel : Nat) :
    List ScanSeg → (Int → HCell) → FieldScanOut
  | [], headers => ⟨headers, [], [], false⟩
  | stack :: parents, headers =>
      let locals := stack.local_arenas
      let fr := scan_stack_frames env locals headers stack rb fuel
      let hev : List ScanEvent :=
        [⟨stack.handlerAddr, stack.handle_value⟩,
         ⟨stack.handlerAddr + 8, stack.handle_exn⟩,
         ⟨stack.handlerAddr + 16, stack.handle_effect⟩]
      let aout := scan_local_allocations env.fields locals stack.local_sp
          fr.1 fuel
      if aout.fatal then
        ⟨aout.headers, fr.2 ++ hev ++ aout.events, aout.checks, true⟩
      else
        let rest := caml_scan_stack_nat env rb fuel parents aout.headers
        ⟨rest.headers, fr.2 ++ hev ++ aout.events ++ rest.events,
         aout.checks ++ rest.checks, rest.fatal⟩

/-- is_scannable of the bytecode scanner: in only-young mode everything
is passed through; otherwise only blocks that are not code pointers
(caml_find_code_fragment_by_pc, modelled by the `isCode` predicate)
are scannable. -/
def is_scannable (onlyYoung : Bool) (isCode : Int → Bool) (v : FieldVal) :
    Bool :=
  onlyYoung ||
    (match v with
     | .imm => false
     | .young a => !isCode a
     | .block a => !isCode a)

/-- The slot loop of the bytecode scanner: every word between sp and
Stack_high is individually tested and reported when scannable. -/
def scan_slots (onlyYoung : Bool) (isCode : Int → Bool)
    (mem : Int → FieldVal) : Int → Nat → List ScanEvent
  | _, 0 => []
  | sp, n + 1 =>
      let v := mem sp
      (if is_scannable onlyYoung isCode v then [⟨sp, v⟩] else [])
        ++ scan_slots onlyYoung isCode mem (sp + 8) n

/-- caml_scan_stack, bytecode variant: per segment, every slot between
sp and Stack_high is tested and reported, then each of the three
handler values is reported when scannable, then the walk continues to
the parent.  (This variant performs no local-arena scan.) -/
def caml_scan_stack_byte (onlyYoung : Bool) (isCode : Int → Bool)
    (mem : Int → FieldVal) : List ScanSeg → List ScanEvent
  | [] => []
  | stack :: parents =>
      let nslots := ((stack.high - stack.sp) / 8).toNat
      scan_slots onlyYoung isCode mem stack.sp nslots
        ++ (if is_scannable onlyYoung isCode stack.handle_value then
              [⟨stack.handlerAddr, stack.handle_value⟩] else [])
        ++ (if is_scannable onlyYoung isCode stack.handle_exn then
              [⟨stack.handlerAddr + 8, stack.handle_exn⟩] else [])
        ++ (if is_scannable onlyYoung isCode stack.handle_effect then
              [⟨stack.handlerAddr + 16, stack.handle_effect⟩] else [])
        ++ caml_scan_stack_byte onlyYoung isCode mem parents

/-- The per-segment scan order asserted by the specification for the
direct-slot mode, stated in the spec's words: after the frame slots and
the handler triple, the local-arena region is scanned before moving to
the parent.  This definition follows the spec, not the source; it is
compared against caml_scan_stack_byte. -/
def spec_claimed_byte_trace (onlyYoung : Bool) (isCode : Int → Bool)
    (mem : Int → FieldVal) (fields : Int → FieldVal)
    (headers : Int → HCell) (fuel : Nat) : List ScanSeg → List ScanEvent
  | [] => []
  | stack :: parents =>
      let nslots := ((stack.high - stack.sp) / 8).toNat
      let aout := scan_local_allocations fields stack.local_arenas
          stack.local_sp headers fuel
      scan_slots onlyYoung isCode mem stack.sp nslots
        ++ (if is_scannable onlyYoung isCode stack.handle_value then
              [⟨stack.handlerAddr, stack.handle_value⟩] else [])
        ++ (if is_scannable onlyYoung isCode stack.handle_exn then
              [⟨stack.handlerAddr + 8, stack.handle_exn⟩] else [])
        ++ (if is_scannable onlyYoung isCode stack.handle_effect then
              [⟨stack.handlerAddr + 16, stack.handle_effect⟩] else [])
        ++ aout.events
        ++ spec_claimed_byte_trace onlyYoung isCode mem fields aout.headers
            fuel parents

/-! ## Chain predicates used to state the growth claims -/

/-- First pointer of an exception chain description: the head node, or
the terminal pointer when the chain has no node inside the stack. -/
def chain_head : List Int → Int → Int
  | [], t => t
  | a :: _, _ => a

/-- A well-formed exception chain in the old stack: the nodes `as` lie
in the live region [sp, high) (and above Stack_base), each node cell
holds the address of the next node (the last holds the terminal `t`,
which lies outside the walkable range (base, high]), and node addresses
strictly increase towards the enclosing frames. -/
def old_chain_ok (m : Int → Int) (base sp high : Int) :
    List Int → Int → Bool
  | [], t => ! (decide (base < t) && decide (t ≤ high))
  | a :: rest, t =>
      decide (base < a) && decide (sp ≤ a) && decide (a < high) &&
      decide (m a = chain_head rest t) &&
      (match rest with
       | [] => true
       | b :: _ => decide (a < b)) &&
      old_chain_ok m base sp high rest t

/-- The memory `final` holds, starting at cell `loc`, the chain `as`
translated by `delta`: each cell holds the next node address shifted by
delta, and the last translated cell still holds the untranslated
terminal `t`. -/
def translated_chain_holds (final : Int → Int) (delta : Int) :
    Int → List Int → Int → Prop
  | loc, [], t => final loc = t
  | loc, a :: rest, t =>
      final loc = a + delta ∧
        translated_chain_holds final delta (a + delta) rest t

/-! ## Specification-side scan orders (for the root-scanning claim) -/

/-- The per-segment scan order of the compiled-frame mode, stated as in
the specification: frames, then the handler triple, then the local
arenas, then the parent; the walk ends at the segment with no parent
(and a fatal arena scan ends the process).  This definition follows the
spec's words and is compared against caml_scan_stack_nat. -/
def spec_native_scan_order (env : NativeEnv) (rb : Int) (fuel : Nat) :
    List ScanSeg → (Int → HCell) → List ScanEvent
  | [], _ => []
  | stack :: parents, headers =>
      let fr := scan_stack_frames env stack.local_arenas headers stack rb fuel
      let aout := scan_local_allocations env.fields stack.local_arenas
          stack.local_sp fr.1 fuel
      fr.2
        ++ [⟨stack.handlerAddr, stack.handle_value⟩,
            ⟨stack.handlerAddr + 8, stack.handle_exn⟩,
            ⟨stack.handlerAddr + 16, stack.handle_effect⟩]
        ++ aout.events
        ++ (if aout.fatal then []
            else spec_native_scan_order env rb fuel parents aout.headers)

/-- The per-segment scan order of the direct-slot mode as amended:
frame slots, then the handler triple filtered by scannability, then the
parent — with no local-arena scan.  This definition follows the amended
spec's words and is compared against caml_scan_stack_byte. -/
def spec_byte_scan_order (onlyYoung : Bool) (isCode : Int → Bool)
    (mem : Int → FieldVal) : List ScanSeg → List ScanEvent
  | [] => []
  | stack :: parents =>
      scan_slots onlyYoung isCode mem stack.sp
          ((stack.high - stack.sp) / 8).toNat
        ++ (if is_scannable onlyYoung isCode stack.handle_value then
              [⟨stack.handlerAddr, stack.handle_value⟩] else [])
        ++ (if is_scannable onlyYoung isCode stack.handle_exn then
              [⟨stack.handlerAddr + 8, stack.handle_exn⟩] else [])
        ++ (if is_scannable onlyYoung isCode stack.handle_effect then
              [⟨stack.handlerAddr + 16, stack.handle_effect⟩] else [])
        ++ spec_byte_scan_order onlyYoung isCode mem parents

/-! ## Concrete instances used by witnesses and counterexamples -/

/-- A concrete stack for the growth demonstrations: capacity 10 words
at [100, 110), 6 words in use. -/
def growDemoStack : GrowStack :=
  { addr := 1
    base := 100
    high := 110
    sp := 104
    parent := some 7
    handle_value := 11
    handle_exn := 12
    handle_effect := 13
    id := 42
    local_arenas := none
    local_sp := 0
    local_top := none
    local_limit := 0 }

/-- Memory for the growth demonstrations: the exn_handler cell at 0
points to a two-node exception chain at 106 and 108 ending at the
out-of-stack terminal 200; the async cell at 1 points elsewhere. -/
def growDemoMem : Int → Int := fun a =>
  if a = 0 then 106
  else if a = 106 then 108
  else if a = 108 then 200
  else if a = 1 then 999
  else 0

/-- The growth demonstration state. -/
def growDemoState : GrowState :=
  { current := growDemoStack
    mem := growDemoMem
    exnAddr := 0
    asyncAddr := 1
    cstack := [] }

/-- Allocator oracle for the growth demonstrations: the new region is
[300, 320). -/
def growDemoAlloc : Nat → Option (Int × Int × Int) := fun _ =>
  some (2, 300, 320)

/-- A concrete pooled segment (size class 1) for the cache
demonstrations. -/
def cacheDemoStk : StackInfo :=
  { addr := 55
    capacity := 8
    cache_bucket := some 1
    sp_off := 3
    handle_value := 21
    handle_exn := 22
    handle_effect := 23
    parent := some 9
    id := 5
    local_arenas := some 4
    local_sp := -8
    local_top := some 6
    local_limit := 16 }

/-- A bytecode segment with a pushed local arena, used to compare the
direct-slot scan against the spec's claimed order: the arena at
[1000, 1016) holds one marked one-field object whose field is a young
block. -/
def byteDemoSeg : ScanSeg :=
  { sp := 0
    high := 0
    handlerAddr := 100
    handle_value := .imm
    handle_exn := .imm
    handle_effect := .imm
    local_arenas := some [⟨1000, 16⟩]
    local_sp := -16 }

/-- Header memory for the bytecode demonstration: a marked (transient
colour) object of one word at 1000. -/
def byteDemoHeaders : Int → HCell := fun q =>
  if q = 1000 then .hdr ⟨.garbage, 0, 1, 1, 0, 0⟩ else .uninit

/-- Value memory for the bytecode demonstration: the object's single
field holds a young block. -/
def byteDemoFields : Int → FieldVal := fun q =>
  if q = 1008 then .young 500 else .imm

/-- The drop operation as the specification claims it, not as the
source has it (for comparison with caml_drop_continuation): take the
continuation and, when it was non-empty, release every segment of the
returned chain through free_segment; when the continuation was already
Empty, do nothing.  `chainSegs` enumerates the segments of the returned
chain (the head and its Stack_parent ancestors), which the
address-linked segment model cannot recover from the head alone. -/
def spec_claimed_drop (alone : Bool) (cache : StackCache)
    (slot : ContSlot) (chainSegs : StackInfo → List StackInfo) :
    StackCache × ContSlot :=
  match caml_continuation_use_noexc alone slot with
  | (none, slot2) => (cache, slot2)
  | (some stk, slot2) =>
      ((chainSegs stk).foldl (fun c s => (caml_free_stack c s).1) cache,
       slot2)

/-- The parent segment of the drop demonstration chain: pooled in
class 0. -/
def dropDemoParent : StackInfo :=
  { addr := 70
    capacity := 4
    cache_bucket := some 0
    sp_off := 0
    handle_value := 0
    handle_exn := 0
    handle_effect := 0
    parent := none
    id := 8
    local_arenas := none
    local_sp := 0
    local_top := none
    local_limit := 0 }

/-- The head segment of the drop demonstration chain: pooled in class
0, its parent link pointing at dropDemoParent. -/
def dropDemoHead : StackInfo :=
  { addr := 60
    capacity := 4
    cache_bucket := some 0
    sp_off := 0
    handle_value := 0
    handle_exn := 0
    handle_effect := 0
    parent := some 70
    id := 7
    local_arenas := none
    local_sp := 0
    local_top := none
    local_limit := 0 }

/-- Chain enumeration for the drop demonstration: the chain headed by
dropDemoHead consists of the head and its parent. -/
def dropDemoChain : StackInfo → List StackInfo := fun s =>
  if s = dropDemoHead then [dropDemoHead, dropDemoParent] else [s]

/-! ## Theorems -/

/-- Claim C1: take swaps the continuation slot to Empty and returns the
previous value; a take on an already-Empty continuation reports
AlreadyEmpty (the raising variant raises
continuation-already-resumed); after one take, every subsequent take on
the same continuation observes AlreadyEmpty — on both the
single-context fast path and the compare-exchange path. -/
theorem continuation_take_one_shot (alone : Bool) (c : StackInfo)
    (slot : ContSlot) :
    caml_continuation_use_noexc alone (some c) = (some c, none) ∧
    caml_continuation_use_noexc alone none = (none, none) ∧
    caml_continuation_use_noexc alone
        (caml_continuation_use_noexc alone slot).2 = (none, none) ∧
    caml_continuation_use alone none = .error .continuation_already_resumed := by
  cases alone <;>
    simp [caml_continuation_use_noexc, caml_continuation_use]

/-- Claim C10: with no interleaving, the single-execution-context fast
path of take (plain read, plain write of the null sentinel) returns the
same value and leaves the slot in the same state as the atomic
compare-exchange path, for every initial slot state. -/
theorem take_fast_path_refines_cas (slot : ContSlot) :
    caml_continuation_use_noexc true slot =
      caml_continuation_use_noexc false slot := by
  simp [caml_continuation_use_noexc]

/-- Claim C5, counterexample, exhibiting both deviations of
caml_drop_continuation from the claimed behaviour at concrete inputs:
dropping an already-Empty continuation raises
continuation-already-resumed (the raising take is used) instead of
being a no-op, and dropping a two-segment chain pushes only the head
segment into its free list — the class-0 list differs from the one the
claimed release of all the chain's segments would produce, because
caml_free_stack never walks the parent link. -/
theorem drop_deviates_from_claimed :
    caml_drop_continuation true (fun _ => []) none =
      .error .continuation_already_resumed ∧
    (match caml_drop_continuation true (fun _ => []) (some dropDemoHead) with
     | .ok (c, _, _) => c 0
     | .error _ => []) ≠
      (spec_claimed_drop true (fun _ => []) (some dropDemoHead)
          dropDemoChain).1 0 := by
  constructor
  · rfl
  · decide

/-- Claim C5, amended: drop of a populated continuation is take
followed by caml_free_stack on the returned head segment only (the
chain's parent segments are not walked or released); drop of an
already-Empty continuation raises continuation-already-resumed (it is
not a no-op). -/
theorem drop_is_take_then_free (alone : Bool) (cache : StackCache)
    (stk : StackInfo) :
    caml_drop_continuation alone cache (some stk) =
      .ok ((caml_free_stack cache stk).1, (caml_free_stack cache stk).2,
           none) ∧
    caml_drop_continuation alone cache none =
      .error .continuation_already_resumed := by
  cases alone <;>
    simp [caml_drop_continuation, caml_continuation_use,
      caml_continuation_use_noexc]

/-- Claim C4: under the dedicated mapped-stack backend and the
guard-page backend, growth is structurally disabled —
caml_try_realloc_stack returns failure for every required space without
producing any new state, success is possible only under the plain-heap
backend, and the caller turns the failure into the catchable
stack-overflow error when capacity is insufficient. -/
theorem growth_disabled_on_mapped_backends (maxW fuel : Nat)
    (alloc : Nat → Option (Int × Int × Int)) (st : GrowState)
    (required : Nat)
    (hneed : st.current.sp - (required : Int) < st.current.base) :
    caml_try_realloc_stack .mmapMapStack maxW fuel alloc st required = none ∧
    caml_try_realloc_stack .guardPages maxW fuel alloc st required = none ∧
    (∀ b st2,
      caml_try_realloc_stack b maxW fuel alloc st required = some st2 →
        b = .plainHeap) ∧
    caml_ensure_stack_capacity .mmapMapStack maxW fuel alloc st required =
      .error .stack_overflow ∧
    caml_ensure_stack_capacity .guardPages maxW fuel alloc st required =
      .error .stack_overflow := by
  refine ⟨rfl, rfl, ?_, ?_, ?_⟩
  · intro b st2 h
    cases b with
    | mmapMapStack => exact absurd h (by simp [caml_try_realloc_stack])
    | guardPages => exact absurd h (by simp [caml_try_realloc_stack])
    | plainHeap => rfl
  · simp [caml_ensure_stack_capacity, caml_try_realloc_stack, hneed]
  · simp [caml_ensure_stack_capacity, caml_try_realloc_stack, hneed]

/-- Witness for the disabled-growth theorem at a concrete state needing
10 words. -/
theorem growth_disabled_on_mapped_backends_witness :
    (growDemoState.current.sp - ((10 : Nat) : Int) <
        growDemoState.current.base) ∧
    (caml_try_realloc_stack .mmapMapStack 100 5 growDemoAlloc growDemoState
        10 = none ∧
     caml_try_realloc_stack .guardPages 100 5 growDemoAlloc growDemoState
        10 = none ∧
     (∀ b st2,
       caml_try_realloc_stack b 100 5 growDemoAlloc growDemoState 10 =
           some st2 → b = .plainHeap) ∧
     caml_ensure_stack_capacity .mmapMapStack 100 5 growDemoAlloc
        growDemoState 10 = .error .stack_overflow ∧
     caml_ensure_stack_capacity .guardPages 100 5 growDemoAlloc
        growDemoState 10 = .error .stack_overflow) :=
  ⟨by decide,
   growth_disabled_on_mapped_backends 100 5 growDemoAlloc growDemoState 10
     (by decide)⟩

/-- On success the doubling loop returns the first repeated doubling of
the current size that covers the target, every earlier size being below
both the cap and the target. -/
theorem realloc_wsize_loop_some_spec (maxW target : Nat) :
    ∀ (fuel wsize w : Nat), wsize < target →
      realloc_wsize_loop maxW target fuel wsize = some w →
      target ≤ w ∧
        ∃ k, 1 ≤ k ∧ w = wsize * 2 ^ k ∧
          (∀ j < k, wsize * 2 ^ j < maxW) ∧
          (∀ j < k, wsize * 2 ^ j < target) := by
  intro fuel
  induction fuel with
  | zero => intro wsize w _ h; simp [realloc_wsize_loop] at h
  | succ fuel ih =>
      intro wsize w hlt h
      rw [realloc_wsize_loop] at h
      by_cases hcap : maxW ≤ wsize
      · simp [hcap] at h
      · rw [if_neg hcap] at h
        by_cases htar : wsize * 2 < target
        · rw [if_pos htar] at h
          obtain ⟨hw, k, hk1, hkeq, hkcap, hktar⟩ := ih (wsize * 2) w htar h
          refine ⟨hw, k + 1, by omega, by rw [hkeq]; ring, ?_, ?_⟩
          · intro j hj
            cases j with
            | zero => simpa using Nat.lt_of_not_le hcap
            | succ j =>
                have := hkcap j (by omega)
                calc wsize * 2 ^ (j + 1) = wsize * 2 * 2 ^ j := by ring
                _ < maxW := this
          · intro j hj
            cases j with
            | zero => simpa using hlt
            | succ j =>
                have := hktar j (by omega)
                calc wsize * 2 ^ (j + 1) = wsize * 2 * 2 ^ j := by ring
                _ < target := this
        · rw [if_neg htar] at h
          obtain rfl : wsize * 2 = w := by simpa using h
          refine ⟨by omega, 1, le_refl 1, by ring, ?_, ?_⟩
          · intro j hj
            obtain rfl : j = 0 := by omega
            simpa using Nat.lt_of_not_le hcap
          · intro j hj
            obtain rfl : j = 0 := by omega
            simpa using hlt

/-- On failure (with enough fuel) the doubling loop stopped because
some repeated doubling of the current size reached the cap while still
below the target: the cap was hit before the requirement was
satisfied. -/
theorem realloc_wsize_loop_none_spec (maxW target : Nat) :
    ∀ (fuel wsize : Nat), 1 ≤ wsize → wsize < target →
      maxW < fuel + wsize →
      realloc_wsize_loop maxW target fuel wsize = none →
      ∃ j, maxW ≤ wsize * 2 ^ j ∧ wsize * 2 ^ j < target := by
  intro fuel
  induction fuel with
  | zero =>
      intro wsize h1 hlt hfuel _
      exact ⟨0, by simpa using Nat.le_of_lt hfuel, by simpa using hlt⟩
  | succ fuel ih =>
      intro wsize h1 hlt hfuel h
      rw [realloc_wsize_loop] at h
      by_cases hcap : maxW ≤ wsize
      · exact ⟨0, by simpa using hcap, by simpa using hlt⟩
      · rw [if_neg hcap] at h
        by_cases htar : wsize * 2 < target
        · rw [if_pos htar] at h
          obtain ⟨j, hj1, hj2⟩ :=
            ih (wsize * 2) (by omega) htar (by omega) h
          refine ⟨j + 1, ?_, ?_⟩
          · calc maxW ≤ wsize * 2 * 2 ^ j := hj1
            _ = wsize * 2 ^ (j + 1) := by ring
          · calc wsize * 2 ^ (j + 1) = wsize * 2 * 2 ^ j := by ring
            _ < target := hj2
        · simp [htar] at h

/-- Claim C3: the new capacity is the current capacity repeatedly
doubled until it covers currently-used words plus required words, every
intermediate size staying under the configured maximum; the loop fails
exactly by reaching the cap while the requirement is still unmet, and a
failed loop makes caml_try_realloc_stack return failure without
producing any new state. -/
theorem grow_doubling_policy (maxW fuel wsize used required w : Nat)
    (h1 : 1 ≤ wsize) (hlt : wsize < used + required) :
    (realloc_wsize_loop maxW (used + required) fuel wsize = some w →
      used + required ≤ w ∧
        ∃ k, 1 ≤ k ∧ w = wsize * 2 ^ k ∧
          (∀ j < k, wsize * 2 ^ j < maxW) ∧
          (∀ j < k, wsize * 2 ^ j < used + required)) ∧
    (maxW < fuel + wsize →
      realloc_wsize_loop maxW (used + required) fuel wsize = none →
      ∃ j, maxW ≤ wsize * 2 ^ j ∧ wsize * 2 ^ j < used + required) ∧
    (∀ (alloc : Nat → Option (Int × Int × Int)) (st : GrowState),
      realloc_wsize_loop maxW
          ((st.current.high - st.current.sp).toNat + required) fuel
          ((st.current.high - st.current.base).toNat) = none →
      caml_try_realloc_stack .plainHeap maxW fuel alloc st required = none) := by
  refine ⟨fun h => realloc_wsize_loop_some_spec maxW (used + required) fuel
      wsize w hlt h,
    fun hfuel h => realloc_wsize_loop_none_spec maxW (used + required) fuel
      wsize h1 hlt hfuel h,
    fun alloc st h => ?_⟩
  simp only [caml_try_realloc_stack, h]

/-- Witness for the doubling-policy theorem: capacity 10, target 35,
cap 100, enough fuel. -/
theorem grow_doubling_policy_witness :
    ((1 : Nat) ≤ 10) ∧ ((10 : Nat) < 30 + 5) ∧
    ((realloc_wsize_loop 100 (30 + 5) 91 10 = some 40 →
        30 + 5 ≤ 40 ∧
          ∃ k, 1 ≤ k ∧ 40 = 10 * 2 ^ k ∧
            (∀ j < k, 10 * 2 ^ j < 100) ∧
            (∀ j < k, 10 * 2 ^ j < 30 + 5)) ∧
      (100 < 91 + 10 →
        realloc_wsize_loop 100 (30 + 5) 91 10 = none →
        ∃ j, 100 ≤ 10 * 2 ^ j ∧ 10 * 2 ^ j < 30 + 5) ∧
      (∀ (alloc : Nat → Option (Int × Int × Int)) (st : GrowState),
        realloc_wsize_loop 100
            ((st.current.high - st.current.sp).toNat + 5) 91
            ((st.current.high - st.current.base).toNat) = none →
        caml_try_realloc_stack .plainHeap 100 91 alloc st 5 = none)) :=
  ⟨by decide, by decide,
   grow_doubling_policy 100 91 10 30 5 40 (by decide) (by decide)⟩

/-- Claim C6: freeing a pooled segment and then allocating the same
size class within one execution context returns the very segment just
freed (LIFO reuse) with no backend call in either direction, and
restores the cache; an unpooled segment goes straight to the backend on
free and an unpooled size is never served from the cache. -/
theorem cache_lifo_reuse (P : AllocParams) (fiberWsz : Nat)
    (cache : StackCache) (stk : StackInfo) (wosize b : Nat)
    (hval hexn heff : Int) (id : Int) (freshA : Option Nat) :
    (stk.cache_bucket = some b → stack_cache_bucket fiberWsz wosize = some b →
      (caml_free_stack cache stk).2 = false ∧
      caml_alloc_stack_noexc P fiberWsz (caml_free_stack cache stk).1 wosize
          hval hexn heff id freshA =
        some ({ stk with
                  handle_value := hval
                  handle_exn := hexn
                  handle_effect := heff
                  parent := none
                  sp_off := 0
                  id := id
                  local_arenas := none
                  local_sp := 0
                  local_top := none
                  local_limit := 0 }, cache, false)) ∧
    (stk.cache_bucket = none → caml_free_stack cache stk = (cache, true)) ∧
    (stack_cache_bucket fiberWsz wosize = none →
      ∀ stk2 cache2 called,
        caml_alloc_stack_noexc P fiberWsz cache wosize hval hexn heff id
            freshA = some (stk2, cache2, called) →
        called = true) := by
  refine ⟨fun hstk hb => ?_, fun hstk => ?_, fun hb stk2 cache2 called h => ?_⟩
  · constructor
    · simp [caml_free_stack, hstk]
    · simp [caml_free_stack, hstk, caml_alloc_stack_noexc, hb,
        alloc_size_class_stack_noexc, Function.update_same,
        Function.update_idem, Function.update_eq_self]
  · simp [caml_free_stack, hstk]
  · rw [caml_alloc_stack_noexc, hb, alloc_size_class_stack_noexc.eq_def] at h
    cases hA : freshA with
    | none => rw [hA] at h; simp at h
    | some A => rw [hA] at h; simp at h; exact h.2.2

/-- Witness for the LIFO-reuse theorem: a pooled class-1 segment
(fiber size 4, request 8) is freed into an empty cache and the next
same-class allocation returns it without any backend call. -/
theorem cache_lifo_reuse_witness :
    (cacheDemoStk.cache_bucket = some 1) ∧
    (stack_cache_bucket 4 8 = some 1) ∧
    ((caml_free_stack (fun _ => []) cacheDemoStk).2 = false ∧
      caml_alloc_stack_noexc ⟨64, 32, 1⟩ 4
          (caml_free_stack (fun _ => []) cacheDemoStk).1 8 1 2 3 77 none =
        some ({ cacheDemoStk with
                  handle_value := 1
                  handle_exn := 2
                  handle_effect := 3
                  parent := none
                  sp_off := 0
                  id := 77
                  local_arenas := none
                  local_sp := 0
                  local_top := none
                  local_limit := 0 }, (fun _ => []), false)) :=
  ⟨by decide, by decide,
   (cache_lifo_reuse ⟨64, 32, 1⟩ 4 (fun _ => []) cacheDemoStk 8 1 1 2 3 77
       none).1 (by decide) (by decide)⟩

/-- Rounding up to a multiple of 16 never decreases a quantity. -/
theorem round_up_p2_le_16 (x : Nat) : x ≤ round_up_p2 x 16 := by
  unfold round_up_p2
  have h := Nat.div_add_mod (x + 16 - 1) 16
  have h2 : (x + 16 - 1) % 16 < 16 := Nat.mod_lt _ (by norm_num)
  omega

/-- The plain-heap layout computation always yields at least the
requested usable capacity: alignment and padding only add room. -/
theorem alloc_for_stack_capacity (P : AllocParams) (A wosize : Nat) :
    wosize ≤ (alloc_for_stack P A wosize).capacity := by
  simp only [alloc_for_stack]
  have h := round_up_p2_le_16 (A + P.infoBytes + 8 * (wosize + P.padWords))
  have h8 : 8 * wosize ≤
      round_up_p2 (A + P.infoBytes + 8 * (wosize + P.padWords)) 16
        - 8 * P.padWords - (A + P.infoBytes) := by omega
  have h9 : 8 * wosize / 8 ≤
      (round_up_p2 (A + P.infoBytes + 8 * (wosize + P.padWords)) 16
        - 8 * P.padWords - (A + P.infoBytes)) / 8 :=
    Nat.div_le_div_right h8
  omega

/-- A successful bucket search returns the index of the doubling of the
base fiber size that the request equals. -/
theorem stack_cache_bucket_go_spec (wosize : Nat) :
    ∀ (n sz bucket b : Nat),
      stack_cache_bucket_go wosize n sz bucket = some b →
      ∃ j, b = bucket + j ∧ wosize = sz * 2 ^ j := by
  intro n
  induction n with
  | zero => intro sz bucket b h; simp [stack_cache_bucket_go] at h
  | succ n ih =>
      intro sz bucket b h
      rw [stack_cache_bucket_go] at h
      by_cases he : wosize = sz
      · rw [if_pos he] at h
        obtain rfl : bucket = b := by simpa using h
        exact ⟨0, by omega, by simpa using he⟩
      · rw [if_neg he] at h
        obtain ⟨j, hj1, hj2⟩ := ih (sz + sz) (bucket + 1) b h
        refine ⟨j + 1, by omega, ?_⟩
        rw [hj2]; ring

/-- A pooled request size is exactly the base fiber size scaled by a
power of two given by its bucket. -/
theorem stack_cache_bucket_pooled (fiberWsz wosize b : Nat)
    (h : stack_cache_bucket fiberWsz wosize = some b) :
    wosize = fiberWsz * 2 ^ b := by
  obtain ⟨j, hj1, hj2⟩ :=
    stack_cache_bucket_go_spec wosize numStackSizeClasses fiberWsz 0 b h
  obtain rfl : j = b := by omega
  exact hj2

/-- Claim C7: every segment returned by allocation has usable capacity
at least the requested word count (for a cache of segments whose
capacities cover their size classes) and is initialised with the given
handler triple, no parent, sp at the top of the usable region, and
cleared local-arena state. -/
theorem alloc_initializes (P : AllocParams) (fiberWsz : Nat)
    (cache : StackCache) (wosize : Nat) (hval hexn heff : Int) (id : Int)
    (freshA : Option Nat)
    (hcache : ∀ b s, s ∈ cache b → fiberWsz * 2 ^ b ≤ s.capacity) :
    ∀ stk2 cache2 called,
      caml_alloc_stack_noexc P fiberWsz cache wosize hval hexn heff id
          freshA = some (stk2, cache2, called) →
      wosize ≤ stk2.capacity ∧ stk2.handle_value = hval ∧
      stk2.handle_exn = hexn ∧ stk2.handle_effect = heff ∧
      stk2.parent = none ∧ stk2.sp_off = 0 ∧ stk2.local_arenas = none ∧
      stk2.local_sp = 0 ∧ stk2.local_top = none ∧ stk2.local_limit = 0 := by
  intro stk2 cache2 called h
  rw [caml_alloc_stack_noexc] at h
  cases hb : stack_cache_bucket fiberWsz wosize with
  | some b =>
      rw [hb, alloc_size_class_stack_noexc.eq_def] at h
      cases hcb : cache b with
      | cons s rest =>
          simp only [hcb, Option.some.injEq, Prod.mk.injEq] at h
          obtain ⟨hstk, -, -⟩ := h
          subst hstk
          have hcap : fiberWsz * 2 ^ b ≤ s.capacity :=
            hcache b s (by rw [hcb]; exact List.mem_cons_self s rest)
          have hpool := stack_cache_bucket_pooled fiberWsz wosize b hb
          have hle : wosize ≤ s.capacity := by omega
          exact ⟨by simpa using hle, by simp⟩
      | nil =>
          cases hA : freshA with
          | none => simp [hcb, hA] at h
          | some A =>
              simp only [hcb, hA, Option.some.injEq, Prod.mk.injEq] at h
              obtain ⟨hstk, -, -⟩ := h
              subst hstk
              refine ⟨?_, by simp⟩
              simpa using alloc_for_stack_capacity P A wosize
  | none =>
      rw [hb, alloc_size_class_stack_noexc.eq_def] at h
      cases hA : freshA with
      | none => simp [hA] at h
      | some A =>
          simp only [hA, Option.some.injEq, Prod.mk.injEq] at h
          obtain ⟨hstk, -, -⟩ := h
          subst hstk
          refine ⟨?_, by simp⟩
          simpa using alloc_for_stack_capacity P A wosize

/-- Witness for the allocation-initialisation theorem: an unpooled
request of 10 words served fresh from byte address 1000. -/
theorem alloc_initializes_witness :
    (∀ b s, s ∈ (fun _ => ([] : List StackInfo)) b →
        4 * 2 ^ b ≤ s.capacity) ∧
    (∀ stk2 cache2 called,
      caml_alloc_stack_noexc ⟨64, 32, 1⟩ 4 (fun _ => []) 10 1 2 3 9
          (some 1000) = some (stk2, cache2, called) →
      10 ≤ stk2.capacity ∧ stk2.handle_value = 1 ∧
      stk2.handle_exn = 2 ∧ stk2.handle_effect = 3 ∧
      stk2.parent = none ∧ stk2.sp_off = 0 ∧ stk2.local_arenas = none ∧
      stk2.local_sp = 0 ∧ stk2.local_top = none ∧ stk2.local_limit = 0) :=
  ⟨by simp,
   alloc_initializes ⟨64, 32, 1⟩ 4 (fun _ => []) 10 1 2 3 9 (some 1000)
     (by simp)⟩

/-- The field scan of one object reaches caml_fatal_error exactly when
one of the local-reference checks it performs is backwards. -/
theorem scan_obj_fields_fatal_iff (fields : Int → FieldVal)
    (loc : List LocalArena) (sp valAddr : Int) :
    ∀ (rem i : Nat) (headers : Int → HCell),
      (scan_obj_fields fields loc sp valAddr i rem headers).fatal = true ↔
        ∃ c ∈ (scan_obj_fields fields loc sp valAddr i rem headers).checks,
          c.newsp < c.sp := by
  intro rem
  induction rem with
  | zero => intro i headers; simp [scan_obj_fields]
  | succ rem ih =>
      intro i headers
      rw [scan_obj_fields]
      rcases hv : visit fields (some loc) headers (valAddr + 8 * (i : Int))
        with ⟨headers2, marked, evs⟩
      cases marked with
      | none => simpa using ih (i + 1) headers2
      | some ix =>
          simp only []
          split
          next hcond =>
            simp only [List.mem_cons]
            constructor
            · intro hf
              obtain ⟨c, hc, hlt⟩ := (ih (i + 1) headers2).mp hf
              exact ⟨c, Or.inr hc, hlt⟩
            · rintro ⟨c, hc | hc, hlt⟩
              · subst hc; exact absurd hlt (by simpa using hcond)
              · exact (ih (i + 1) headers2).mpr ⟨c, hc, hlt⟩
          next hcond =>
            simp only [List.mem_singleton]
            constructor
            · intro _
              exact ⟨⟨sp, _⟩, rfl, by simpa using hcond⟩
            · intro _; trivial

/-- Composing a completed (non-fatal) field scan with the rest of the
walk preserves the fatal-iff-backwards characterisation. -/
theorem fatal_iff_append (fout rest : FieldScanOut)
    (hobj : (fout.fatal = true) ↔ ∃ c ∈ fout.checks, c.newsp < c.sp)
    (hrest : (rest.fatal = true) ↔ ∃ c ∈ rest.checks, c.newsp < c.sp)
    (hf : ¬ fout.fatal = true) :
    rest.fatal = true ↔
      ∃ c ∈ fout.checks ++ rest.checks, c.newsp < c.sp := by
  constructor
  · intro h
    obtain ⟨c, hc, hlt⟩ := hrest.mp h
    exact ⟨c, List.mem_append_right _ hc, hlt⟩
  · rintro ⟨c, hc, hlt⟩
    rcases List.mem_append.mp hc with hc2 | hc2
    · exact absurd (hobj.mpr ⟨c, hc2, hlt⟩) hf
    · exact hrest.mpr ⟨c, hc2, hlt⟩

/-- The arena walk reaches caml_fatal_error exactly when one of the
local-reference checks it performs is backwards. -/
theorem scan_local_loop_fatal_iff (fields : Int → FieldVal)
    (loc : List LocalArena) :
    ∀ (fuel : Nat) (headers : Int → HCell) (sp : Int) (arena_ix : Nat),
      (scan_local_loop fields loc fuel headers sp arena_ix).fatal = true ↔
        ∃ c ∈ (scan_local_loop fields loc fuel headers sp arena_ix).checks,
          c.newsp < c.sp := by
  intro fuel
  induction fuel with
  | zero => intro headers sp arena_ix; simp [scan_local_loop]
  | succ fuel ih =>
      intro headers sp arena_ix
      rw [scan_local_loop]
      by_cases hsp : sp < 0
      · rw [if_pos hsp]
        simp only []
        split
        · exact ih _ _ _
        · split
          · exact ih _ _ _
          · split
            · exact ih _ _ _
            · split <;> split
              · exact scan_obj_fields_fatal_iff fields loc sp _ _ _ _
              next hf =>
                exact fatal_iff_append _ _
                  (scan_obj_fields_fatal_iff fields loc sp _ _ _ _)
                  (ih _ _ _) hf
              · exact scan_obj_fields_fatal_iff fields loc sp _ _ _ _
              next hf =>
                exact fatal_iff_append _ _
                  (scan_obj_fields_fatal_iff fields loc sp _ _ _ _)
                  (ih _ _ _) hf
      · rw [if_neg hsp]; simp

/-- Claim C9: during local-arena scanning a forward reference (into a
less-recently-pushed arena, at or above the current scan offset) is
accepted, while a backward reference reaches the fatal-invariant path
(process termination, modelled by the fatal flag, not a recoverable
error): the scan terminates fatally exactly when some local-reference
check it performs is backwards, so under the precondition that every
reference encountered is forward the fatal branch is unreachable. -/
theorem local_scan_backwards_fatal_iff (fields : Int → FieldVal)
    (loc : Option (List LocalArena)) (local_sp : Int)
    (headers : Int → HCell) (fuel : Nat) :
    (scan_local_allocations fields loc local_sp headers fuel).fatal = true ↔
      ∃ c ∈ (scan_local_allocations fields loc local_sp headers fuel).checks,
        c.newsp < c.sp := by
  cases loc with
  | none => simp [scan_local_allocations]
  | some arenas =>
      exact scan_local_loop_fatal_iff fields arenas fuel headers local_sp
        (arenas.length - 1)

/-- The compiled-frame scan visits, per segment, the frames, then the
handler triple, then the local arenas, then the parent chain. -/
theorem caml_scan_stack_nat_events_eq (env : NativeEnv) (rb : Int)
    (fuel : Nat) :
    ∀ (chain : List ScanSeg) (headers : Int → HCell),
      (caml_scan_stack_nat env rb fuel chain headers).events =
        spec_native_scan_order env rb fuel chain headers := by
  intro chain
  induction chain with
  | nil => intro headers; rfl
  | cons stack parents ih =>
      intro headers
      rw [caml_scan_stack_nat, spec_native_scan_order]
      simp only []
      split
      · simp
      · simp [ih]

/-- The direct-slot scan visits, per segment, every slot between sp and
the top, then the scannable handler values, then the parent chain —
with no local-arena scan. -/
theorem caml_scan_stack_byte_events_eq (onlyYoung : Bool)
    (isCode : Int → Bool) (mem : Int → FieldVal) :
    ∀ chain : List ScanSeg,
      caml_scan_stack_byte onlyYoung isCode mem chain =
        spec_byte_scan_order onlyYoung isCode mem chain := by
  intro chain
  induction chain with
  | nil => rfl
  | cons stack parents ih =>
      rw [caml_scan_stack_byte, spec_byte_scan_order, ih]

/-- Claim C8, counterexample: in direct-slot mode the root scan does
not scan the local-arena region; on a segment carrying a pushed arena
with one marked object the actual trace is empty while the claimed
order (frames, handlers, then arenas) would report the arena root. -/
theorem byte_scan_skips_local_arenas :
    caml_scan_stack_byte false (fun _ => false) byteDemoFields
        [byteDemoSeg] ≠
      spec_claimed_byte_trace false (fun _ => false) byteDemoFields
        byteDemoFields byteDemoHeaders 4 [byteDemoSeg] := by decide

/-- Claim C8, amended: in compiled-frame mode each segment is scanned
in the order frames, handler triple, local arenas, then the parent, and
the walk ends at the segment with no parent; in direct-slot mode the
order is frame slots, then the handler values filtered by
scannability, then the parent, with no local-arena scan. -/
theorem scan_order_both_modes (env : NativeEnv) (rb : Int) (fuel : Nat)
    (onlyYoung : Bool) (isCode : Int → Bool) (mem : Int → FieldVal)
    (chain : List ScanSeg) (headers : Int → HCell) :
    (caml_scan_stack_nat env rb fuel chain headers).events =
      spec_native_scan_order env rb fuel chain headers ∧
    caml_scan_stack_byte onlyYoung isCode mem chain =
      spec_byte_scan_order onlyYoung isCode mem chain :=
  ⟨caml_scan_stack_nat_events_eq env rb fuel chain headers,
   caml_scan_stack_byte_events_eq onlyYoung isCode mem chain⟩

/-- Destructuring of a well-formed chain with at least one node. -/
theorem old_chain_ok_cons (m : Int → Int) (base sp high : Int)
    (a : Int) (rest : List Int) (t : Int)
    (h : old_chain_ok m base sp high (a :: rest) t = true) :
    base < a ∧ sp ≤ a ∧ a < high ∧ m a = chain_head rest t ∧
      old_chain_ok m base sp high rest t = true := by
  simp only [old_chain_ok, Bool.and_eq_true, decide_eq_true_eq] at h
  tauto

/-- In a well-formed chain the head lies strictly below every later
node. -/
theorem old_chain_ok_head_lt (m : Int → Int) (base sp high : Int) :
    ∀ (rest : List Int) (a t : Int),
      old_chain_ok m base sp high (a :: rest) t = true →
      ∀ b ∈ rest, a < b := by
  intro rest
  induction rest with
  | nil => intro a t h b hb; simp at hb
  | cons c cs ih =>
      intro a t h b hb
      have hlt : a < c := by
        simp only [old_chain_ok, Bool.and_eq_true, decide_eq_true_eq] at h
        tauto
      have hrest := (old_chain_ok_cons m base sp high a (c :: cs) t h).2.2.2.2
      rcases List.mem_cons.mp hb with rfl | hb2
      · exact hlt
      · exact lt_trans hlt (ih c t hrest b hb2)

/-- Every node of a well-formed chain lies in the live region. -/
theorem old_chain_ok_mem_bounds (m : Int → Int) (base sp high : Int) :
    ∀ (as : List Int) (t : Int),
      old_chain_ok m base sp high as t = true →
      ∀ a ∈ as, base < a ∧ sp ≤ a ∧ a < high := by
  intro as
  induction as with
  | nil => intro t h a ha; simp at ha
  | cons c cs ih =>
      intro t h a ha
      obtain ⟨h1, h2, h3, h4, h5⟩ := old_chain_ok_cons m base sp high c cs t h
      rcases List.mem_cons.mp ha with rfl | ha2
      · exact ⟨h1, h2, h3⟩
      · exact ih t h5 a ha2

/-- Behaviour of the exception-chain rewriting loop on a well-formed
chain: every node cell (and the head cell) ends up holding the next
address translated by the move delta, the terminal pointer is left
untranslated, and every cell outside the head cell, the async cell and
the translated node cells is untouched. -/
theorem rewrite_exn_loop_spec (origMem : Int → Int)
    (base sp high newHigh asyncAddr : Int) :
    ∀ (as : List Int) (t : Int) (runMem : Int → Int) (loc : Int) (fuel : Nat),
      old_chain_ok origMem base sp high as t = true →
      runMem loc = chain_head as t →
      (∀ a ∈ as, runMem (a + (newHigh - high)) = origMem a) →
      (∀ a ∈ as, a + (newHigh - high) ≠ loc) →
      (∀ a ∈ as, a + (newHigh - high) ≠ asyncAddr) →
      loc ≠ asyncAddr →
      as.length + 1 ≤ fuel →
      translated_chain_holds
          (rewrite_exn_loop base high newHigh asyncAddr fuel runMem loc)
          (newHigh - high) loc as t ∧
      (∀ b : Int, b ≠ loc → b ≠ asyncAddr →
        (∀ a ∈ as, b ≠ a + (newHigh - high)) →
        rewrite_exn_loop base high newHigh asyncAddr fuel runMem loc b =
          runMem b) := by
  intro as
  induction as with
  | nil =>
      intro t runMem loc fuel hchain hhead hcopy hloc hasync hdist hfuel
      obtain ⟨fuel, rfl⟩ : ∃ f, fuel = f + 1 := ⟨fuel - 1, by omega⟩
      simp only [chain_head] at hhead
      simp only [old_chain_ok, Bool.not_and, Bool.not_eq_true',
        Bool.or_eq_true, decide_eq_false_iff_not, Bool.not_eq_true,
        Bool.and_eq_true, decide_eq_true_eq] at hchain
      have hterm : ¬ (base < runMem loc ∧ runMem loc ≤ high) := by
        rw [hhead]; tauto
      rw [rewrite_exn_loop, if_neg hterm]
      exact ⟨hhead, fun b _ _ _ => rfl⟩
  | cons a rest ih =>
      intro t runMem loc fuel hchain hhead hcopy hloc hasync hdist hfuel
      obtain ⟨fuel, rfl⟩ : ∃ f, fuel = f + 1 := ⟨fuel - 1, by omega⟩
      obtain ⟨hba, hsa, hah, hma, hrest⟩ :=
        old_chain_ok_cons origMem base sp high a rest t hchain
      have hlt := old_chain_ok_head_lt origMem base sp high rest a t hchain
      simp only [chain_head] at hhead
      have hmemself : a ∈ a :: rest := List.mem_cons_self a rest
      have hdelta : newHigh - (high - a) = a + (newHigh - high) := by ring
      rw [rewrite_exn_loop]
      simp only []
      rw [hhead, if_pos ⟨hba, le_of_lt hah⟩, hdelta]
      set L : Int → Int := fun x =>
        if x = loc then a + (newHigh - high)
        else if a = runMem asyncAddr ∧ x = asyncAddr then a + (newHigh - high)
        else runMem x with hLdef
      have hLeq : ∀ x : Int, x ≠ loc → x ≠ asyncAddr → L x = runMem x := by
        intro x h1 h2
        rw [hLdef]
        simp only [if_neg h1]
        rw [if_neg (fun hc => h2 hc.2)]
      have hLhead : L (a + (newHigh - high)) = chain_head rest t := by
        rw [hLeq _ (hloc a hmemself) (hasync a hmemself), hcopy a hmemself]
        exact hma
      have hLcopy : ∀ b ∈ rest, L (b + (newHigh - high)) = origMem b := by
        intro b hb
        rw [hLeq _ (hloc b (List.mem_cons_of_mem a hb))
          (hasync b (List.mem_cons_of_mem a hb))]
        exact hcopy b (List.mem_cons_of_mem a hb)
      have ihres := ih t L (a + (newHigh - high)) fuel hrest hLhead hLcopy
        (fun b hb hEq => by have := hlt b hb; omega)
        (fun b hb => hasync b (List.mem_cons_of_mem a hb))
        (hasync a hmemself)
        (by simp only [List.length_cons] at hfuel; omega)
      obtain ⟨ihtrans, ihframe⟩ := ihres
      constructor
      · refine ⟨?_, ihtrans⟩
        rw [ihframe loc (fun h => hloc a hmemself h.symm) hdist
          (fun x hx h => hloc x (List.mem_cons_of_mem a hx) h.symm)]
        rw [hLdef]
        simp
      · intro b hb1 hb2 hb3
        rw [ihframe b (hb3 a hmemself) hb2
          (fun x hx => hb3 x (List.mem_cons_of_mem a hx))]
        exact hLeq b hb1 hb2

/-- Claim C2: when growth succeeds, the live region of the new segment
holds, word for word, the old live contents (except at the
exception-chain cells, which are rewritten), the new sp preserves the
used depth, the parent link is unchanged, and every exception-chain
pointer that pointed inside the old segment is translated by exactly
the move delta, the walk stopping at the first pointer outside the old
range (whose value is preserved). -/
theorem grow_preserves_live_region
    (maxW fuel required : Nat) (alloc : Nat → Option (Int × Int × Int))
    (st : GrowState) (as : List Int) (t : Int) (wsize : Nat)
    (na nb nh : Int)
    (hw : realloc_wsize_loop maxW
        ((st.current.high - st.current.sp).toNat + required) fuel
        ((st.current.high - st.current.base).toNat) = some wsize)
    (halloc : alloc wsize = some (na, nb, nh))
    (hchain : old_chain_ok st.mem st.current.base st.current.sp
        st.current.high as t = true)
    (hhead : st.mem st.exnAddr = chain_head as t)
    (hexn : ¬ (nh - (st.current.high - st.current.sp) ≤ st.exnAddr ∧
        st.exnAddr < nh))
    (hasync : ¬ (nh - (st.current.high - st.current.sp) ≤ st.asyncAddr ∧
        st.asyncAddr < nh))
    (hdist : st.exnAddr ≠ st.asyncAddr)
    (hfuel : as.length + 1 ≤ fuel) :
    ∃ st2, caml_try_realloc_stack .plainHeap maxW fuel alloc st required =
        some st2 ∧
      st2.current.base = nb ∧ st2.current.high = nh ∧
      st2.current.high - st2.current.sp = st.current.high - st.current.sp ∧
      st2.current.parent = st.current.parent ∧
      (∀ a : Int, st.current.sp ≤ a → a < st.current.high → a ∉ as →
        st2.mem (a + (nh - st.current.high)) = st.mem a) ∧
      translated_chain_holds st2.mem (nh - st.current.high) st.exnAddr as t := by
  have hbounds := old_chain_ok_mem_bounds st.mem st.current.base
    st.current.sp st.current.high as t hchain
  simp only [caml_try_realloc_stack, hw, halloc]
  have spec := rewrite_exn_loop_spec st.mem st.current.base st.current.sp
      st.current.high nh st.asyncAddr as t
      (fun a => if nh - (st.current.high - st.current.sp) ≤ a ∧ a < nh
        then st.mem (a - (nh - st.current.high)) else st.mem a)
      st.exnAddr fuel hchain ?_ ?_ ?_ ?_ hdist hfuel
  · refine ⟨_, rfl, rfl, rfl, ?_, rfl, ?_, ?_⟩
    · show nh - (nh - (st.current.high - st.current.sp)) =
        st.current.high - st.current.sp
      omega
    · intro x h1 h2 h3
      show rewrite_exn_loop st.current.base st.current.high nh st.asyncAddr
          fuel
          (fun a => if nh - (st.current.high - st.current.sp) ≤ a ∧ a < nh
            then st.mem (a - (nh - st.current.high)) else st.mem a)
          st.exnAddr (x + (nh - st.current.high)) = st.mem x
      have hx1 : x + (nh - st.current.high) ≠ st.exnAddr := fun he =>
        hexn ⟨by omega, by omega⟩
      have hx2 : x + (nh - st.current.high) ≠ st.asyncAddr := fun he =>
        hasync ⟨by omega, by omega⟩
      have hx3 : ∀ a2 ∈ as, x + (nh - st.current.high) ≠
          a2 + (nh - st.current.high) := by
        intro a2 ha2 he
        have hxa : x = a2 := by omega
        exact h3 (hxa ▸ ha2)
      rw [spec.2 _ hx1 hx2 hx3]
      have hin : nh - (st.current.high - st.current.sp) ≤
          x + (nh - st.current.high) ∧ x + (nh - st.current.high) < nh := by
        omega
      simp only [if_pos hin]
      congr 1
      ring
    · show translated_chain_holds
        (rewrite_exn_loop st.current.base st.current.high nh st.asyncAddr
          fuel
          (fun a => if nh - (st.current.high - st.current.sp) ≤ a ∧ a < nh
            then st.mem (a - (nh - st.current.high)) else st.mem a)
          st.exnAddr)
        (nh - st.current.high) st.exnAddr as t
      exact spec.1
  · simp only [if_neg hexn]
    exact hhead
  · intro b hb
    obtain ⟨hb1, hb2, hb3⟩ := hbounds b hb
    have hin : nh - (st.current.high - st.current.sp) ≤
        b + (nh - st.current.high) ∧ b + (nh - st.current.high) < nh := by
      omega
    simp only [if_pos hin]
    congr 1
    ring
  · intro b hb heq
    obtain ⟨hb1, hb2, hb3⟩ := hbounds b hb
    exact hexn ⟨by omega, by omega⟩
  · intro b hb heq
    obtain ⟨hb1, hb2, hb3⟩ := hbounds b hb
    exact hasync ⟨by omega, by omega⟩

/-- Witness for the growth theorem: the demo stack grows from 10 to 20
words, the two-node chain at 106, 108 is rewritten to 316, 318 and the
terminal 200 preserved. -/
theorem grow_preserves_live_region_witness :
    (realloc_wsize_loop 100
        ((growDemoState.current.high - growDemoState.current.sp).toNat + 2) 5
        ((growDemoState.current.high - growDemoState.current.base).toNat) =
      some 20) ∧
    (growDemoAlloc 20 = some (2, 300, 320)) ∧
    (old_chain_ok growDemoState.mem growDemoState.current.base
        growDemoState.current.sp growDemoState.current.high [106, 108] 200 =
      true) ∧
    (growDemoState.mem growDemoState.exnAddr = chain_head [106, 108] 200) ∧
    (¬ (320 - (growDemoState.current.high - growDemoState.current.sp) ≤
          growDemoState.exnAddr ∧ growDemoState.exnAddr < 320)) ∧
    (¬ (320 - (growDemoState.current.high - growDemoState.current.sp) ≤
          growDemoState.asyncAddr ∧ growDemoState.asyncAddr < 320)) ∧
    (growDemoState.exnAddr ≠ growDemoState.asyncAddr) ∧
    (([106, 108] : List Int).length + 1 ≤ 5) ∧
    (∃ st2,
      caml_try_realloc_stack .plainHeap 100 5 growDemoAlloc growDemoState 2 =
          some st2 ∧
        st2.current.base = 300 ∧ st2.current.high = 320 ∧
        st2.current.high - st2.current.sp =
          growDemoState.current.high - growDemoState.current.sp ∧
        st2.current.parent = growDemoState.current.parent ∧
        (∀ a : Int, growDemoState.current.sp ≤ a →
          a < growDemoState.current.high → a ∉ ([106, 108] : List Int) →
          st2.mem (a + (320 - growDemoState.current.high)) =
            growDemoState.mem a) ∧
        translated_chain_holds st2.mem (320 - growDemoState.current.high)
          growDemoState.exnAddr [106, 108] 200) :=
  ⟨by decide, by decide, by decide, by decide, by decide, by decide,
   by decide, by decide,
   grow_preserves_live_region 100 5 2 growDemoAlloc growDemoState
     [106, 108] 200 20 2 300 320 (by decide) (by decide) (by decide)
     (by decide) (by decide) (by decide) (by decide) (by decide)⟩

end Fiber
